import Mathlib

/-!
Verification of the ollama_gateway request admission and serving pipeline.

Shallow embedding of the authoritative modular sources:
  src/cache.rs            (CacheEntry, make_cache_key)
  src/load_balancer.rs    (Backend, LoadBalancer::get_backend, set_healthy)
  src/worker.rs           (batch_worker loop body)
  src/handlers/generate.rs (check_rate_limit, generate_handler)
  src/rate_limit.rs       (RateLimitEntry)
  src/models.rs           (GenerateRequest, GenerateResponse, BatchedRequest)

Time (`std::time::Instant`) is modelled as a natural-number timestamp;
`created_at.elapsed()` at observation time `now` is `now - created_at`
(truncated subtraction; real elapsed times are non-negative).
The u64 round-robin cursor wraps modulo 2^64 exactly as the Rust
`AtomicUsize::fetch_add` does on a 64-bit target.
-/

set_option maxRecDepth 8000

namespace Gateway

/-- Request type `GenerateRequest` from src/models.rs: model, prompt, and the
serde-defaulted stream flag. -/
structure GenerateRequest where
  model : String
  prompt : String
  stream : Bool
deriving DecidableEq

/-- Response type `GenerateResponse` from src/models.rs. -/
structure GenerateResponse where
  model : String
  response : String
deriving DecidableEq

/-- Cache entry type `CacheEntry` from src/cache.rs: serialized response JSON plus creation
instant. -/
structure CacheEntry where
  response : String
  created_at : Nat
deriving DecidableEq

/-! ### UTF-8 bytes of a string

Rust `String` stores UTF-8; `Sha256::update(&req.model)` hashes the UTF-8
bytes.  We encode each scalar value per the UTF-8 definition. -/

/-- UTF-8 encoding of one Unicode scalar value (as byte values < 256). -/
def utf8EncodeScalar (n : Nat) : List Nat :=
  if n < 0x80 then
    [n]
  else if n < 0x800 then
    [0xC0 + n / 0x40, 0x80 + n % 0x40]
  else if n < 0x10000 then
    [0xE0 + n / 0x1000, 0x80 + (n / 0x40) % 0x40, 0x80 + n % 0x40]
  else
    [0xF0 + n / 0x40000, 0x80 + (n / 0x1000) % 0x40,
     0x80 + (n / 0x40) % 0x40, 0x80 + n % 0x40]

/-- The UTF-8 byte sequence of a string. -/
def utf8Bytes (s : String) : List Nat :=
  s.data.flatMap (fun c => utf8EncodeScalar c.toNat)


/-! ### SHA-256 (FIPS 180-4)

`make_cache_key` feeds the model bytes and then the prompt bytes into a
`sha2::Sha256` hasher, which is SHA-256 of the concatenated byte stream,
and prints the 32-byte digest as lowercase hex (`format!("\x7b:x\x7d")`). -/

/-- Truncate to a 32-bit word. -/
def w32 (n : Nat) : Nat := n % 2 ^ 32

/-- 32-bit modular addition. -/
def add32 (a b : Nat) : Nat := (a + b) % 2 ^ 32

/-- Right rotation of a 32-bit word. -/
def rotr32 (k x : Nat) : Nat :=
  (x / 2 ^ k + x % 2 ^ k * 2 ^ (32 - k)) % 2 ^ 32

/-- Bitwise exclusive or (arguments are 32-bit words). -/
def xor32 (a b : Nat) : Nat := a ^^^ b

/-- SHA-256 Ch function. -/
def shaCh (x y z : Nat) : Nat := xor32 (x &&& y) ((2 ^ 32 - 1 - x) &&& z)

/-- SHA-256 Maj function. -/
def shaMaj (x y z : Nat) : Nat := xor32 (xor32 (x &&& y) (x &&& z)) (y &&& z)

/-- SHA-256 Σ0. -/
def bigSigma0 (x : Nat) : Nat := xor32 (xor32 (rotr32 2 x) (rotr32 13 x)) (rotr32 22 x)

/-- SHA-256 Σ1. -/
def bigSigma1 (x : Nat) : Nat := xor32 (xor32 (rotr32 6 x) (rotr32 11 x)) (rotr32 25 x)

/-- SHA-256 σ0. -/
def smallSigma0 (x : Nat) : Nat := xor32 (xor32 (rotr32 7 x) (rotr32 18 x)) (x / 2 ^ 3)

/-- SHA-256 σ1. -/
def smallSigma1 (x : Nat) : Nat := xor32 (xor32 (rotr32 17 x) (rotr32 19 x)) (x / 2 ^ 10)

/-- The 64 SHA-256 round constants. -/
def shaK : List Nat :=
  [0x428A2F98, 0x71374491, 0xB5C0FBCF, 0xE9B5DBA5, 0x3956C25B, 0x59F111F1,
   0x923F82A4, 0xAB1C5ED5, 0xD807AA98, 0x12835B01, 0x243185BE, 0x550C7DC3,
   0x72BE5D74, 0x80DEB1FE, 0x9BDC06A7, 0xC19BF174, 0xE49B69C1, 0xEFBE4786,
   0x0FC19DC6, 0x240CA1CC, 0x2DE92C6F, 0x4A7484AA, 0x5CB0A9DC, 0x76F988DA,
   0x983E5152, 0xA831C66D, 0xB00327C8, 0xBF597FC7, 0xC6E00BF3, 0xD5A79147,
   0x06CA6351, 0x14292967, 0x27B70A85, 0x2E1B2138, 0x4D2C6DFC, 0x53380D13,
   0x650A7354, 0x766A0ABB, 0x81C2C92E, 0x92722C85, 0xA2BFE8A1, 0xA81A664B,
   0xC24B8B70, 0xC76C51A3, 0xD192E819, 0xD6990624, 0xF40E3585, 0x106AA070,
   0x19A4C116, 0x1E376C08, 0x2748774C, 0x34B0BCB5, 0x391C0CB3, 0x4ED8AA4A,
   0x5B9CCA4F, 0x682E6FF3, 0x748F82EE, 0x78A5636F, 0x84C87814, 0x8CC70208,
   0x90BEFFFA, 0xA4506CEB, 0xBEF9A3F7, 0xC67178F2]

/-- The SHA-256 initial hash value. -/
def shaH0 : List Nat :=
  [0x6A09E667, 0xBB67AE85, 0x3C6EF372, 0xA54FF53A,
   0x510E527F, 0x9B05688C, 0x1F83D9AB, 0x5BE0CD19]

/-- Message padding: append 0x80, zeros to 56 mod 64, then the bit length
as 8 big-endian bytes. -/
def shaPad (msg : List Nat) : List Nat :=
  let len := msg.length
  let zeros := (119 - len % 64) % 64
  let bitLen := len * 8
  msg ++ 0x80 :: List.replicate zeros 0 ++
    [bitLen / 2 ^ 56 % 256, bitLen / 2 ^ 48 % 256, bitLen / 2 ^ 40 % 256,
     bitLen / 2 ^ 32 % 256, bitLen / 2 ^ 24 % 256, bitLen / 2 ^ 16 % 256,
     bitLen / 2 ^ 8 % 256, bitLen % 256]

/-- Split a byte list into 64-byte blocks; the fuel argument (any bound on
the block count, e.g. the list length) makes the recursion structural. -/
def toBlocksAux : Nat → List Nat → List (List Nat)
  | _, [] => []
  | 0, _ :: _ => []
  | fuel + 1, x :: xs => (x :: xs).take 64 :: toBlocksAux fuel ((x :: xs).drop 64)

/-- Split the padded message into 64-byte blocks. -/
def toBlocks (l : List Nat) : List (List Nat) :=
  toBlocksAux l.length l

/-- The 16 initial 32-bit big-endian words of one 64-byte block. -/
def blockWords (block : List Nat) : List Nat :=
  (List.range 16).map fun j =>
    block.getD (4 * j) 0 * 2 ^ 24 + block.getD (4 * j + 1) 0 * 2 ^ 16 +
      block.getD (4 * j + 2) 0 * 2 ^ 8 + block.getD (4 * j + 3) 0

/-- One message-schedule extension step; the accumulator holds the words
produced so far, most recent first. -/
def scheduleStep (acc : List Nat) : List Nat :=
  add32 (add32 (smallSigma1 (acc.getD 1 0)) (acc.getD 6 0))
      (add32 (smallSigma0 (acc.getD 14 0)) (acc.getD 15 0)) :: acc

/-- The full 64-word message schedule of one block. -/
def schedule (block : List Nat) : List Nat :=
  ((List.range 48).foldl (fun acc _ => scheduleStep acc)
    (blockWords block).reverse).reverse

/-- The eight 32-bit working variables of the compression loop. -/
structure ShaState where
  a : Nat
  b : Nat
  c : Nat
  d : Nat
  e : Nat
  f : Nat
  g : Nat
  h : Nat

/-- One SHA-256 compression round, given the schedule word and round
constant for this round. -/
def shaRound (st : ShaState) (wk : Nat × Nat) : ShaState :=
  let t1 := add32 (add32 (add32 st.h (bigSigma1 st.e))
      (add32 (shaCh st.e st.f st.g) wk.2)) wk.1
  let t2 := add32 (bigSigma0 st.a) (shaMaj st.a st.b st.c)
  { a := add32 t1 t2, b := st.a, c := st.b, d := st.c,
    e := add32 st.d t1, f := st.e, g := st.f, h := st.g }

/-- Compress one block into the running 8-word hash value. -/
def compressBlock (hs : List Nat) (block : List Nat) : List Nat :=
  let init : ShaState :=
    { a := hs.getD 0 0, b := hs.getD 1 0, c := hs.getD 2 0, d := hs.getD 3 0,
      e := hs.getD 4 0, f := hs.getD 5 0, g := hs.getD 6 0, h := hs.getD 7 0 }
  let fin := (List.zip (schedule block) shaK).foldl shaRound init
  [add32 (hs.getD 0 0) fin.a, add32 (hs.getD 1 0) fin.b,
   add32 (hs.getD 2 0) fin.c, add32 (hs.getD 3 0) fin.d,
   add32 (hs.getD 4 0) fin.e, add32 (hs.getD 5 0) fin.f,
   add32 (hs.getD 6 0) fin.g, add32 (hs.getD 7 0) fin.h]

/-- SHA-256 digest of a byte sequence, as eight 32-bit words. -/
def sha256Words (msg : List Nat) : List Nat :=
  (toBlocks (shaPad msg)).foldl compressBlock shaH0

/-- Lowercase hex digit. -/
def hexDigit (n : Nat) : Char :=
  if n < 10 then Char.ofNat (48 + n) else Char.ofNat (87 + n)

/-- Eight lowercase hex digits of one 32-bit word (big-endian nibbles). -/
def hexWord (w : Nat) : List Char :=
  [hexDigit (w / 2 ^ 28 % 16), hexDigit (w / 2 ^ 24 % 16),
   hexDigit (w / 2 ^ 20 % 16), hexDigit (w / 2 ^ 16 % 16),
   hexDigit (w / 2 ^ 12 % 16), hexDigit (w / 2 ^ 8 % 16),
   hexDigit (w / 2 ^ 4 % 16), hexDigit (w % 16)]

/-- Lowercase hex rendering of a SHA-256 digest, as `format!("\x7b:x\x7d")`
prints it. -/
def sha256hex (msg : List Nat) : String :=
  String.mk ((sha256Words msg).flatMap hexWord)

/-- Function `make_cache_key` from src/cache.rs: SHA-256 over the model bytes
followed by the prompt bytes (incremental hashing of two updates equals
hashing the concatenation), printed as lowercase hex. -/
def make_cache_key (req : GenerateRequest) : String :=
  sha256hex (utf8Bytes req.model ++ utf8Bytes req.prompt)


/-! ### JSON serialization of `GenerateResponse`

The worker stores `serde_json::to_string(&body)` in the cache and reads
entries back with `serde_json::from_str::<GenerateResponse>`; the
response body of a dispatch is read with `res.json::<GenerateResponse>()`,
the same serde deserializer.  `serde_json` serializes this two-string
struct as `\x7b"model":<string>,"response":<string>\x7d`, escaping `"`,
`\`, and control characters (`\b \t \n \f \r`, otherwise `\u00XX` with
lowercase hex); serialization of a struct of strings is infallible.
`parseResponse` reads that canonical serialized form back (the only form
the worker itself ever writes into the cache) and fails on anything
else. -/

/-- Escape of one character inside a JSON string, as serde_json emits it. -/
def escapeChar (c : Char) : List Char :=
  if c = '"' then ['\\', '"']
  else if c = '\\' then ['\\', '\\']
  else if c.toNat = 8 then ['\\', 'b']
  else if c.toNat = 9 then ['\\', 't']
  else if c.toNat = 10 then ['\\', 'n']
  else if c.toNat = 12 then ['\\', 'f']
  else if c.toNat = 13 then ['\\', 'r']
  else if c.toNat < 32 then
    ['\\', 'u', '0', '0', hexDigit (c.toNat / 16), hexDigit (c.toNat % 16)]
  else [c]

/-- Literal chunk that opens the serialized object up to and including the
opening quote of the model string. -/
def jsonChunk1 : List Char := "\x7b\"model\":\"".data

/-- Literal chunk between the model string and the response string,
up to and including the opening quote of the response string. -/
def jsonChunk2 : List Char := ",\"response\":\"".data

/-- Literal chunk closing the serialized object (after the closing quote
of the response string). -/
def jsonChunk3 : List Char := "\x7d".data

/-- Serialization `serde_json::to_string` of a `GenerateResponse`
(infallible for this struct of two strings). -/
def serializeResponse (r : GenerateResponse) : String :=
  String.mk (jsonChunk1 ++ r.model.data.flatMap escapeChar ++ '"' ::
    (jsonChunk2 ++ r.response.data.flatMap escapeChar ++ '"' :: jsonChunk3))

/-- Value of one hex digit character, if any. -/
def hexVal (c : Char) : Option Nat :=
  if '0' ≤ c ∧ c ≤ '9' then some (c.toNat - 48)
  else if 'a' ≤ c ∧ c ≤ 'f' then some (c.toNat - 87)
  else if 'A' ≤ c ∧ c ≤ 'F' then some (c.toNat - 55)
  else none

/-- Read the body of a JSON string up to its closing quote, undoing the
escapes; returns the decoded characters and the rest of the input. -/
def parseStringBody : List Char → Option (List Char × List Char)
  | [] => none
  | c :: rest =>
    if c = '"' then some ([], rest)
    else if c = '\\' then
      match rest with
      | [] => none
      | e :: rest2 =>
        if e = '"' then (fun p => ('"' :: p.1, p.2)) <$> parseStringBody rest2
        else if e = '\\' then (fun p => ('\\' :: p.1, p.2)) <$> parseStringBody rest2
        else if e = 'b' then (fun p => (Char.ofNat 8 :: p.1, p.2)) <$> parseStringBody rest2
        else if e = 't' then (fun p => (Char.ofNat 9 :: p.1, p.2)) <$> parseStringBody rest2
        else if e = 'n' then (fun p => (Char.ofNat 10 :: p.1, p.2)) <$> parseStringBody rest2
        else if e = 'f' then (fun p => (Char.ofNat 12 :: p.1, p.2)) <$> parseStringBody rest2
        else if e = 'r' then (fun p => (Char.ofNat 13 :: p.1, p.2)) <$> parseStringBody rest2
        else if e = 'u' then
          match rest2 with
          | d1 :: d2 :: d3 :: d4 :: rest6 =>
            match hexVal d1, hexVal d2, hexVal d3, hexVal d4 with
            | some v1, some v2, some v3, some v4 =>
              (fun p => (Char.ofNat (v1 * 4096 + v2 * 256 + v3 * 16 + v4) :: p.1, p.2)) <$>
                parseStringBody rest6
            | _, _, _, _ => none
          | _ => none
        else none
    else (fun p => (c :: p.1, p.2)) <$> parseStringBody rest

/-- Consume an exact literal chunk from the front of the input. -/
def stripExact : List Char → List Char → Option (List Char)
  | [], l => some l
  | _ :: _, [] => none
  | p :: ps, c :: cs => if c = p then stripExact ps cs else none

/-- Deserialization `serde_json::from_str::<GenerateResponse>`, reading
back the canonical form that `serializeResponse` writes. -/
def parseResponse (s : String) : Option GenerateResponse :=
  match stripExact jsonChunk1 s.data with
  | none => none
  | some r1 =>
    match parseStringBody r1 with
    | none => none
    | some (m, r2) =>
      match stripExact jsonChunk2 r2 with
      | none => none
      | some r3 =>
        match parseStringBody r3 with
        | none => none
        | some (resp, r4) =>
          if r4 = jsonChunk3 then some ⟨String.mk m, String.mk resp⟩ else none


/-! ### Rate limiter — src/handlers/generate.rs `check_rate_limit`

The `DashMap` entry for one key (the handler uses the single key
"global").  `entry(..).or_insert(RateLimitEntry \x7b count: 0,
window_start: now \x7d)` is the `Option.getD`; the function mutates the
entry in place and returns the admission decision, so the model returns
the updated entry together with the Bool. -/

/-- Rate limit entry type `RateLimitEntry` from src/rate_limit.rs. -/
structure RateLimitEntry where
  count : Nat
  window_start : Nat
deriving DecidableEq

/-- Function `check_rate_limit` from src/handlers/generate.rs: reset and
admit when the window has expired (strictly more than `window` elapsed),
otherwise increment and admit exactly when `count < limit`. -/
def check_rate_limit (limit window : Nat) (entry? : Option RateLimitEntry)
    (now : Nat) : RateLimitEntry × Bool :=
  let entry := entry?.getD { count := 0, window_start := now }
  if window < now - entry.window_start then
    ({ count := 1, window_start := now }, true)
  else if entry.count < limit then
    ({ count := entry.count + 1, window_start := entry.window_start }, true)
  else
    (entry, false)

/-- A sequence of admission checks on one key at the given times, starting
from the given map entry (`none` = key absent, as for a fresh key). -/
def admitSeq (limit window : Nat) (entry? : Option RateLimitEntry) :
    List Nat → Option RateLimitEntry × List Bool
  | [] => (entry?, [])
  | t :: ts =>
    let r := check_rate_limit limit window entry? t
    let rest := admitSeq limit window (some r.1) ts
    (rest.1, r.2 :: rest.2)

/-! ### Load balancer — src/load_balancer.rs -/

/-- Backend type from src/load_balancer.rs: url plus the atomic health
flag (the source misspells the field `helathy`; accessors `is_healthy` /
`set_healthy` read and write it). -/
structure Backend where
  url : String
  healthy : Bool
deriving DecidableEq

/-- Placeholder backend for out-of-range `getD` reads (never reached for
indices below the pool length). -/
def defaultBackend : Backend := { url := "", healthy := false }

/-- Load balancer: the backend vector and the `AtomicUsize` rotation
cursor. -/
structure LoadBalancer where
  backends : List Backend
  current : Nat
deriving DecidableEq

/-- One round of the `for i in 0..len` scan of `get_backend`: `k` is the
number of loop iterations left and `i` the next iteration index. -/
def scanLoop (bs : List Backend) (start : Nat) : Nat → Nat → Option Nat
  | _, 0 => none
  | i, k + 1 =>
    let idx := (start + i) % bs.length
    if (bs.getD idx defaultBackend).healthy then some idx
    else scanLoop bs start (i + 1) k

/-- Function `LoadBalancer::get_backend`: fetch-and-increment the cursor
(u64 wrap-around), take it modulo the pool size as the start position,
and scan at most once around the pool for the first healthy backend.
Returns the selected backend's index and the updated balancer. -/
def get_backend (lb : LoadBalancer) : Option Nat × LoadBalancer :=
  let len := lb.backends.length
  let start := lb.current % len
  (scanLoop lb.backends start 0 len,
   { lb with current := (lb.current + 1) % 2 ^ 64 })

/-- Function `Backend::set_healthy` applied to the backend at an index of
the pool (the worker holds an `Arc` to the selected backend). -/
def setHealthyAt : List Backend → Nat → Bool → List Backend
  | [], _, _ => []
  | b :: bs, 0, h => { b with healthy := h } :: bs
  | b :: bs, n + 1, h => b :: setHealthyAt bs n h

/-- Health flags of the pool, in order. -/
def healthFlags (lb : LoadBalancer) : List Bool :=
  lb.backends.map Backend.healthy

/-- Successive selections: iterate `get_backend`, collecting the results. -/
def selectSeq (lb : LoadBalancer) : Nat → List (Option Nat)
  | 0 => []
  | n + 1 =>
    let r := get_backend lb
    r.1 :: selectSeq r.2 n

/-! ### Worker — src/worker.rs `batch_worker`

One iteration of the `while let Some(batched_req) = rx.recv().await`
loop, as a pure step function.  The network is an oracle: the outcome
the `client.post(..).send().await` call would produce for this item
(a transport error, or a response whose body may or may not parse).
`response_tx.send` results are discarded by the source (`let _ = ...`),
so a dropped reply handle does not influence the step; the step returns
the list of send calls it performed. -/

/-- Outcome of the backend dispatch, as seen by the worker. -/
inductive DispatchOutcome where
  | transportError (e : String)
  | response (body : String)
deriving DecidableEq

/-- Reply payload sent on the one-shot channel:
`Result<GenerateResponse, String>`. -/
inductive WorkerReply where
  | ok (r : GenerateResponse)
  | err (e : String)
deriving DecidableEq

/-- Lookup in the `DashMap<String, CacheEntry>`. -/
def mapGet (m : List (String × CacheEntry)) (k : String) : Option CacheEntry :=
  (m.find? fun p => p.1 == k).map Prod.snd

/-- Insert-or-overwrite in the `DashMap<String, CacheEntry>`. -/
def mapInsert (m : List (String × CacheEntry)) (k : String) (v : CacheEntry) :
    List (String × CacheEntry) :=
  (k, v) :: m.filter fun p => ¬ p.1 == k

/-- Worker-visible mutable state: the cache map and the shared load
balancer (backend health flags live inside it). -/
structure WorkerState where
  cache : List (String × CacheEntry)
  lb : LoadBalancer
deriving DecidableEq

/-- Cache-miss continuation of the worker loop body (everything after the
`CACHE_MISSES.inc()` line of src/worker.rs): select a backend, dispatch,
update health and cache, and send exactly one reply. -/
def workerMiss (st : WorkerState) (cache_key : String) (now : Nat)
    (net : DispatchOutcome) : WorkerState × List WorkerReply :=
  match get_backend st.lb with
  | (none, lb') =>
    ({ st with lb := lb' }, [.err "No Healthy backends available"])
  | (some idx, lb') =>
    match net with
    | .transportError e =>
      ({ st with lb := { lb' with backends := setHealthyAt lb'.backends idx false } },
       [.err ("Request failed: " ++ e)])
    | .response body =>
      match parseResponse body with
      | some b =>
        ({ cache := mapInsert st.cache cache_key
             { response := serializeResponse b, created_at := now },
           lb := lb' },
         [.ok b])
      | none => ({ st with lb := lb' }, [.err ("Parse Error: " ++ body)])

/-- One full iteration of the `batch_worker` loop for one dequeued item:
compute the cache key, try the cache (fresh means strictly less than
`ttl` elapsed; a fresh entry that parses is sent back and the iteration
ends), otherwise fall through to the miss path. -/
def workerStep (ttl : Nat) (st : WorkerState) (req : GenerateRequest)
    (now : Nat) (net : DispatchOutcome) : WorkerState × List WorkerReply :=
  let cache_key := make_cache_key req
  match mapGet st.cache cache_key with
  | some entry =>
    if now - entry.created_at < ttl then
      match parseResponse entry.response with
      | some response => (st, [.ok response])
      | none => workerMiss st cache_key now net
    else workerMiss st cache_key now net
  | none => workerMiss st cache_key now net

/-- One queued item together with its environment: arrival time at the
worker, the network oracle for its (potential) dispatch, and whether the
caller has dropped its reply handle. -/
structure WorkItem where
  req : GenerateRequest
  now : Nat
  net : DispatchOutcome
  dropped : Bool
deriving DecidableEq

/-- The worker loop over a finite queue of items, collecting every send
the worker performs. -/
def runWorker (ttl : Nat) (st : WorkerState) :
    List WorkItem → WorkerState × List WorkerReply
  | [] => (st, [])
  | item :: rest =>
    let r := workerStep ttl st item.req item.now item.net
    let rr := runWorker ttl r.1 rest
    (rr.1, r.2 ++ rr.2)

/-! ### Gateway facade — src/handlers/generate.rs `generate_handler` -/

/-- Environment of one handler call: whether the queue channel is still
open (`batch_tx.send` succeeds), and the worker's reply on the one-shot
channel (`none` = the reply handle was dropped, so `response_rx.await`
errors). -/
structure HandlerOracle where
  queueOpen : Bool
  workerReply : Option WorkerReply
deriving DecidableEq

/-- Slice of `AppState` the handler reads: the rate-limiter entry for the
"global" key and the configured limit and window. -/
structure HandlerState where
  rlEntry : Option RateLimitEntry
  rate_limit : Nat
  rate_window : Nat
deriving DecidableEq

/-- Result of the handler: `Result<Json<GenerateResponse>, String>`. -/
inductive HandlerResult where
  | success (r : GenerateResponse)
  | failure (msg : String)
deriving DecidableEq

/-- Function `generate_handler`: admission check, enqueue, await reply.
The middle component of the result records whether a request was actually
placed on the queue. -/
def generate_handler (st : HandlerState) (now : Nat) (oracle : HandlerOracle) :
    HandlerState × Bool × HandlerResult :=
  let rl := check_rate_limit st.rate_limit st.rate_window st.rlEntry now
  let st' := { st with rlEntry := some rl.1 }
  if ¬ rl.2 then
    (st', false, .failure "Rate limit exceeded. Try again later.")
  else if ¬ oracle.queueOpen then
    (st', false, .failure "Failed to queue request")
  else
    match oracle.workerReply with
    | none => (st', true, .failure "Worker failed to respond")
    | some (.ok r) => (st', true, .success r)
    | some (.err e) => (st', true, .failure e)

/-- Health of the backend at one index of the pool. -/
def healthyAt (bs : List Backend) (j : Nat) : Bool :=
  (bs.getD j defaultBackend).healthy

/-- Well-formed cache: every entry holds the serialization of some
response.  This is the reachability invariant of the worker-maintained
cache (the worker only ever inserts `serializeResponse` output). -/
def cacheWF (m : List (String × CacheEntry)) : Prop :=
  ∀ k e, mapGet m k = some e → ∃ r, e.response = serializeResponse r

/-! ### Supporting lemmas -/

theorem utf8Bytes_append (a b : String) :
    utf8Bytes (a ++ b) = utf8Bytes a ++ utf8Bytes b := by
  unfold utf8Bytes
  rw [String.data_append, List.flatMap_append]

/-- Sanity check of the SHA-256 embedding against the FIPS 180-4 test
vector for the message "abc". -/
theorem sha256hex_test_vector :
    sha256hex (utf8Bytes "abc") =
      "ba7816bf8f01cfea414140de5dae2223b00361a396177a9cb410ff61f20015ad" := by
  decide

theorem data_mk (l : List Char) : (String.mk l).data = l := rfl

theorem stripExact_append (p l : List Char) : stripExact p (p ++ l) = some l := by
  induction p with
  | nil => rfl
  | cons c ps ih => simp [stripExact, ih]

theorem hexVal_hexDigit (m : Nat) (h : m < 16) : hexVal (hexDigit m) = some m := by
  interval_cases m <;> decide

theorem parseStringBody_cons_escape (c : Char) (l s' rest : List Char)
    (ih : parseStringBody l = some (s', rest)) :
    parseStringBody (escapeChar c ++ l) = some (c :: s', rest) := by
  unfold escapeChar
  split_ifs with h1 h2 h3 h4 h5 h6 h7 h8
  · subst h1; rw [List.cons_append, List.cons_append, List.nil_append,
      parseStringBody.eq_def]
    simp [ih]
  · subst h2; rw [List.cons_append, List.cons_append, List.nil_append,
      parseStringBody.eq_def]
    simp [ih]
  · have hc : c = Char.ofNat 8 := by rw [← h3, Char.ofNat_toNat]
    rw [hc, List.cons_append, List.cons_append, List.nil_append,
      parseStringBody.eq_def]
    simp [ih]
  · have hc : c = Char.ofNat 9 := by rw [← h4, Char.ofNat_toNat]
    rw [hc, List.cons_append, List.cons_append, List.nil_append,
      parseStringBody.eq_def]
    simp [ih]
  · have hc : c = Char.ofNat 10 := by rw [← h5, Char.ofNat_toNat]
    rw [hc, List.cons_append, List.cons_append, List.nil_append,
      parseStringBody.eq_def]
    simp [ih]
  · have hc : c = Char.ofNat 12 := by rw [← h6, Char.ofNat_toNat]
    rw [hc, List.cons_append, List.cons_append, List.nil_append,
      parseStringBody.eq_def]
    simp [ih]
  · have hc : c = Char.ofNat 13 := by rw [← h7, Char.ofNat_toNat]
    rw [hc, List.cons_append, List.cons_append, List.nil_append,
      parseStringBody.eq_def]
    simp [ih]
  · have e1 : hexVal (hexDigit (c.toNat / 16)) = some (c.toNat / 16) :=
      hexVal_hexDigit _ (by omega)
    have e2 : hexVal (hexDigit (c.toNat % 16)) = some (c.toNat % 16) :=
      hexVal_hexDigit _ (Nat.mod_lt _ (by norm_num))
    have h0 : hexVal '0' = some 0 := by decide
    have e3 : c.toNat / 16 * 16 + c.toNat % 16 = c.toNat := by omega
    rw [parseStringBody.eq_def]
    simp [h0, e1, e2, ih, e3, Char.ofNat_toNat]
  · rw [List.singleton_append, parseStringBody.eq_def]
    simp [h1, h2, ih]

theorem parseStringBody_flatMap (s rest : List Char) :
    parseStringBody (s.flatMap escapeChar ++ '"' :: rest) = some (s, rest) := by
  induction s with
  | nil =>
    rw [List.flatMap_nil, List.nil_append, parseStringBody.eq_def]
    simp
  | cons c cs ih =>
    rw [List.flatMap_cons, List.append_assoc]
    exact parseStringBody_cons_escape c _ _ _ ih

/-- Round trip: deserializing a serialized `GenerateResponse` recovers it
exactly (`serde_json` round-trip on this struct). -/
theorem parseResponse_serializeResponse (r : GenerateResponse) :
    parseResponse (serializeResponse r) = some r := by
  unfold parseResponse serializeResponse
  rw [data_mk]
  simp only [List.append_assoc, stripExact_append, parseStringBody_flatMap,
    if_true]

/-! ### Cache map lemmas -/

theorem mapGet_mapInsert_self (m : List (String × CacheEntry)) (k : String)
    (v : CacheEntry) : mapGet (mapInsert m k v) k = some v := by
  simp [mapGet, mapInsert, List.find?]

theorem mapGet_mapInsert (m : List (String × CacheEntry)) (k k' : String)
    (v : CacheEntry) :
    mapGet (mapInsert m k v) k' = if k' = k then some v else mapGet m k' := by
  by_cases h : k' = k
  · subst h; simp [mapGet_mapInsert_self, if_pos]
  · rw [if_neg h]
    unfold mapGet mapInsert
    rw [List.find?_cons_of_neg _ (by simp [Ne.symm h])]
    congr 1
    induction m with
    | nil => rfl
    | cons a as ih =>
      by_cases ha : a.1 = k
      · have ha' : ¬ a.1 = k' := by rw [ha]; exact Ne.symm h
        rw [List.filter_cons_of_neg (by simp [ha]),
          List.find?_cons_of_neg _ (by simp [ha']), ih]
      · rw [List.filter_cons_of_pos (by simp [ha])]
        by_cases hk' : a.1 = k'
        · rw [List.find?_cons_of_pos _ (by simp [hk']),
            List.find?_cons_of_pos _ (by simp [hk'])]
        · rw [List.find?_cons_of_neg _ (by simp [hk']),
            List.find?_cons_of_neg _ (by simp [hk']), ih]

/-! ### Claim C5: the fingerprint is a deterministic SHA-256 of the
concatenated model and prompt bytes, and ignores the stream flag -/

/-- C5: the cache fingerprint is the (deterministic) SHA-256 hex digest of
the byte concatenation of the model field and the prompt field, so its
value for a request with `stream = true` equals its value for the same
model and prompt with `stream = false`. -/
theorem cache_key_sha256_ignores_stream :
    (∀ req : GenerateRequest,
       make_cache_key req =
         sha256hex (utf8Bytes req.model ++ utf8Bytes req.prompt)) ∧
    (∀ model prompt,
       make_cache_key { model := model, prompt := prompt, stream := true } =
         make_cache_key { model := model, prompt := prompt, stream := false }) :=
  ⟨fun _ => rfl, fun _ _ => rfl⟩

/-! ### Claim C9: concatenation without separator makes distinct requests
collide on the same cache key -/

/-- C9: hashing the bare concatenation `model ++ prompt` identifies any two
requests whose concatenations agree; in particular the distinct pairs
("ab","c") and ("a","bc") share one fingerprint, so the second request
reads the entry the first one wrote. -/
theorem cache_key_collision_concat :
    (∀ r1 r2 : GenerateRequest, r1.model ++ r1.prompt = r2.model ++ r2.prompt →
       make_cache_key r1 = make_cache_key r2) ∧
    (make_cache_key { model := "ab", prompt := "c", stream := false } =
       make_cache_key { model := "a", prompt := "bc", stream := false } ∧
     ("ab", "c") ≠ ("a", "bc")) ∧
    (∀ (m : List (String × CacheEntry)) (v : CacheEntry),
       mapGet (mapInsert m (make_cache_key { model := "ab", prompt := "c", stream := false }) v)
         (make_cache_key { model := "a", prompt := "bc", stream := false }) = some v) := by
  have hgen : ∀ r1 r2 : GenerateRequest,
      r1.model ++ r1.prompt = r2.model ++ r2.prompt →
      make_cache_key r1 = make_cache_key r2 := by
    intro r1 r2 h
    unfold make_cache_key
    rw [← utf8Bytes_append, ← utf8Bytes_append, h]
  have hconc : make_cache_key { model := "ab", prompt := "c", stream := false } =
      make_cache_key { model := "a", prompt := "bc", stream := false } :=
    hgen _ _ (by decide)
  refine ⟨hgen, ⟨hconc, by decide⟩, ?_⟩
  intro m v
  rw [← hconc, mapGet_mapInsert_self]

/-! ### Claim C3: fixed-window rate limiting -/

theorem admitSeq_counts (limit window t0 : Nat) (c : Nat) (times : List Nat)
    (ht : ∀ t ∈ times, t - t0 ≤ window) :
    (admitSeq limit window (some { count := c, window_start := t0 }) times).2 =
      (List.range times.length).map (fun i => decide (c + i < limit)) := by
  induction times generalizing c with
  | nil => rfl
  | cons t ts ih =>
    have htt : ¬ window < t - t0 :=
      Nat.not_lt.mpr (ht t (List.mem_cons_self t ts))
    have hts : ∀ t' ∈ ts, t' - t0 ≤ window :=
      fun t' h' => ht t' (List.mem_cons_of_mem _ h')
    by_cases hcl : c < limit
    · have hhead : (check_rate_limit limit window
          (some { count := c, window_start := t0 }) t).2 = true := by
        simp [check_rate_limit, htt, hcl]
      have hentry : (check_rate_limit limit window
          (some { count := c, window_start := t0 }) t).1 =
          { count := c + 1, window_start := t0 } := by
        simp [check_rate_limit, htt, hcl]
      simp only [admitSeq, hentry, hhead, ih (c + 1) hts, List.length_cons,
        List.range_succ_eq_map, List.map_cons, List.map_map, List.cons.injEq]
      refine ⟨by simp [hcl], ?_⟩
      apply List.map_congr_left
      intro i _
      simp only [Function.comp_apply, decide_eq_decide]
      omega
    · have hhead : (check_rate_limit limit window
          (some { count := c, window_start := t0 }) t).2 = false := by
        simp [check_rate_limit, htt, hcl]
      have hentry : (check_rate_limit limit window
          (some { count := c, window_start := t0 }) t).1 =
          { count := c, window_start := t0 } := by
        simp [check_rate_limit, htt, hcl]
      simp only [admitSeq, hentry, hhead, ih c hts, List.length_cons,
        List.range_succ_eq_map, List.map_cons, List.map_map, List.cons.injEq]
      refine ⟨by simp [hcl], ?_⟩
      apply List.map_congr_left
      intro i _
      simp only [Function.comp_apply, decide_eq_decide]
      omega

/-- C3: a call after the window has expired (strictly more than the window
has elapsed) resets the entry to count 1 at the current time and admits;
a call inside the window increments and admits exactly when the count is
below the limit; and, on a fresh key, a run of calls inside one window
admits exactly the first `limit` of them and rejects every later one —
in particular the (limit+1)-th. -/
theorem rate_limit_window_behavior :
    (∀ limit window now (e : RateLimitEntry), window < now - e.window_start →
       check_rate_limit limit window (some e) now =
         ({ count := 1, window_start := now }, true)) ∧
    (∀ limit window now (e : RateLimitEntry), ¬ window < now - e.window_start →
       check_rate_limit limit window (some e) now =
         if e.count < limit then
           ({ count := e.count + 1, window_start := e.window_start }, true)
         else (e, false)) ∧
    (∀ limit window t0 (ts : List Nat), (∀ t ∈ ts, t - t0 ≤ window) →
       (admitSeq limit window none (t0 :: ts)).2 =
         (List.range (ts.length + 1)).map (fun i => decide (i < limit))) := by
  refine ⟨?_, ?_, ?_⟩
  · intro limit window now e h
    simp [check_rate_limit, h]
  · intro limit window now e h
    by_cases hc : e.count < limit <;> simp [check_rate_limit, h, hc]
  · intro limit window t0 ts ht
    have hall : ∀ t ∈ t0 :: ts, t - t0 ≤ window := by
      intro t hmem
      rcases List.mem_cons.mp hmem with h | h
      · subst h; simp
      · exact ht t h
    have hnone : admitSeq limit window none (t0 :: ts) =
        admitSeq limit window (some { count := 0, window_start := t0 }) (t0 :: ts) := by
      rfl
    rw [hnone, admitSeq_counts limit window t0 0 (t0 :: ts) hall]
    simp

/-! ### Claim C4: round-robin backend selection -/


theorem mod_add_cancel_lt (c i j len : Nat) (hi : i < len) (hj : j < len)
    (h : (c + i) % len = (c + j) % len) : i = j := by
  have h2 : i ≡ j [MOD len] := Nat.ModEq.add_left_cancel' c h
  unfold Nat.ModEq at h2
  rwa [Nat.mod_eq_of_lt hi, Nat.mod_eq_of_lt hj] at h2

theorem exists_mod_shift (start j len : Nat) (hj : j < len) :
    ∃ d, d < len ∧ (start + d) % len = j := by
  have hlen : 0 < len := Nat.lt_of_le_of_lt (Nat.zero_le j) hj
  have hslt : start % len < len := Nat.mod_lt _ hlen
  by_cases hle : start % len ≤ j
  · refine ⟨j - start % len, by omega, ?_⟩
    have h1 : start + (j - start % len) ≡
        start % len + (j - start % len) [MOD len] :=
      Nat.ModEq.add_right _ (Nat.mod_modEq start len).symm
    have h2 : start % len + (j - start % len) = j := by omega
    rw [h2] at h1
    unfold Nat.ModEq at h1
    rwa [Nat.mod_eq_of_lt hj] at h1
  · refine ⟨j + len - start % len, by omega, ?_⟩
    have h1 : start + (j + len - start % len) ≡
        start % len + (j + len - start % len) [MOD len] :=
      Nat.ModEq.add_right _ (Nat.mod_modEq start len).symm
    have h2 : start % len + (j + len - start % len) = j + len := by omega
    rw [h2] at h1
    unfold Nat.ModEq at h1
    rwa [Nat.add_mod_right, Nat.mod_eq_of_lt hj] at h1

theorem healthyAt_of_all (bs : List Backend)
    (hall : ∀ b ∈ bs, b.healthy = true) (j : Nat) (hj : j < bs.length) :
    healthyAt bs j = true := by
  unfold healthyAt
  rw [List.getD_eq_getElem bs defaultBackend hj]
  exact hall _ (List.getElem_mem hj)

theorem scanLoop_none_iff (bs : List Backend) (start : Nat) (k : Nat) :
    ∀ i, (scanLoop bs start i k = none ↔
      ∀ d, d < k → healthyAt bs ((start + (i + d)) % bs.length) = false) := by
  induction k with
  | zero => intro i; simp [scanLoop]
  | succ k ih =>
    intro i
    simp only [scanLoop]
    by_cases h : (bs.getD ((start + i) % bs.length) defaultBackend).healthy = true
    · rw [if_pos h]
      constructor
      · intro hc; exact Option.noConfusion hc
      · intro hall
        exfalso
        have h0 := hall 0 (by omega)
        rw [Nat.add_zero] at h0
        have h0' : (bs.getD ((start + i) % bs.length) defaultBackend).healthy = false := h0
        rw [h] at h0'
        cases h0'
    · have hfalse : (bs.getD ((start + i) % bs.length) defaultBackend).healthy = false :=
        Bool.eq_false_iff.mpr h
      rw [if_neg h, ih (i + 1)]
      constructor
      · intro hall d hd
        rcases Nat.eq_zero_or_pos d with hd0 | hdpos
        · subst hd0
          rw [Nat.add_zero]
          exact hfalse
        · have := hall (d - 1) (by omega)
          have harr : i + 1 + (d - 1) = i + d := by omega
          rwa [harr] at this
      · intro hall d hd
        have := hall (d + 1) (by omega)
        have harr : i + (d + 1) = i + 1 + d := by omega
        rwa [harr] at this

theorem scanLoop_some_first (bs : List Backend) (start : Nat) (k : Nat) :
    ∀ i j, scanLoop bs start i k = some j →
      ∃ d, d < k ∧ j = (start + (i + d)) % bs.length ∧
        healthyAt bs j = true ∧
        ∀ d', d' < d → healthyAt bs ((start + (i + d')) % bs.length) = false := by
  induction k with
  | zero => intro i j h; exact absurd h (by simp [scanLoop])
  | succ k ih =>
    intro i j h
    simp only [scanLoop] at h
    by_cases hh : (bs.getD ((start + i) % bs.length) defaultBackend).healthy = true
    · rw [if_pos hh] at h
      refine ⟨0, by omega, ?_, ?_, ?_⟩
      · rw [Nat.add_zero]; exact (Option.some.inj h).symm
      · have hj : j = (start + i) % bs.length := (Option.some.inj h).symm
        subst hj
        exact hh
      · intro d' hd'; omega
    · have hfalse : (bs.getD ((start + i) % bs.length) defaultBackend).healthy = false :=
        Bool.eq_false_iff.mpr hh
      rw [if_neg hh] at h
      obtain ⟨d, hd, hj, hhj, hmin⟩ := ih (i + 1) j h
      refine ⟨d + 1, by omega, ?_, hhj, ?_⟩
      · have harr : i + 1 + d = i + (d + 1) := by omega
        rwa [harr] at hj
      · intro d' hd'
        rcases Nat.eq_zero_or_pos d' with h0 | hpos
        · subst h0
          rw [Nat.add_zero]
          exact hfalse
        · have := hmin (d' - 1) (by omega)
          have harr : i + 1 + (d' - 1) = i + d' := by omega
          rwa [harr] at this

theorem get_backend_none_iff (lb : LoadBalancer) :
    (get_backend lb).1 = none ↔ ∀ b ∈ lb.backends, b.healthy = false := by
  unfold get_backend
  simp only
  rw [scanLoop_none_iff lb.backends (lb.current % lb.backends.length)
    lb.backends.length 0]
  constructor
  · intro hall b hb
    obtain ⟨j, hj, hbj⟩ := List.mem_iff_getElem.mp hb
    obtain ⟨d, hd, hmod⟩ :=
      exists_mod_shift (lb.current % lb.backends.length) j lb.backends.length hj
    have := hall d hd
    rw [Nat.zero_add, hmod] at this
    unfold healthyAt at this
    rw [List.getD_eq_getElem lb.backends defaultBackend hj, hbj] at this
    exact this
  · intro hall d hd
    have hlen : 0 < lb.backends.length := by omega
    have hm : (lb.current % lb.backends.length + (0 + d)) % lb.backends.length <
        lb.backends.length := Nat.mod_lt _ hlen
    unfold healthyAt
    rw [List.getD_eq_getElem lb.backends defaultBackend hm]
    exact hall _ (List.getElem_mem hm)

theorem get_backend_some_first (lb : LoadBalancer) (j : Nat)
    (h : (get_backend lb).1 = some j) :
    ∃ d, d < lb.backends.length ∧
      j = (lb.current % lb.backends.length + d) % lb.backends.length ∧
      healthyAt lb.backends j = true ∧
      ∀ d', d' < d →
        healthyAt lb.backends
          ((lb.current % lb.backends.length + d') % lb.backends.length) = false := by
  unfold get_backend at h
  simp only at h
  obtain ⟨d, hd, hj, hhj, hmin⟩ :=
    scanLoop_some_first lb.backends (lb.current % lb.backends.length)
      lb.backends.length 0 j h
  rw [Nat.zero_add] at hj
  refine ⟨d, hd, hj, hhj, ?_⟩
  intro d' hd'
  have := hmin d' hd'
  rwa [Nat.zero_add] at this

theorem get_backend_all_healthy (lb : LoadBalancer)
    (hall : ∀ b ∈ lb.backends, b.healthy = true)
    (hlen : 0 < lb.backends.length) :
    (get_backend lb).1 = some (lb.current % lb.backends.length) := by
  obtain ⟨m, hm⟩ : ∃ m, lb.backends.length = m + 1 :=
    ⟨lb.backends.length - 1, by omega⟩
  have hstart : lb.current % lb.backends.length < lb.backends.length :=
    Nat.mod_lt _ hlen
  have hidx : (lb.current % lb.backends.length + 0) % lb.backends.length =
      lb.current % lb.backends.length := by
    rw [Nat.add_zero, Nat.mod_eq_of_lt hstart]
  have hh : healthyAt lb.backends
      ((lb.current % lb.backends.length + 0) % lb.backends.length) = true := by
    rw [hidx]
    exact healthyAt_of_all lb.backends hall _ hstart
  unfold healthyAt at hh
  unfold get_backend
  simp only
  rw [hm]
  simp only [scanLoop]
  rw [← hm, if_pos (by rw [hh]), hidx]

theorem selectSeq_all_healthy (n : Nat) : ∀ lb : LoadBalancer,
    (∀ b ∈ lb.backends, b.healthy = true) → 0 < lb.backends.length →
    lb.current + n ≤ 2 ^ 64 →
    selectSeq lb n = (List.range n).map
      (fun i => some ((lb.current + i) % lb.backends.length)) := by
  induction n with
  | zero => intro lb _ _ _; rfl
  | succ n ih =>
    intro lb hall hlen hwrap
    have hfst : (get_backend lb).1 = some (lb.current % lb.backends.length) :=
      get_backend_all_healthy lb hall hlen
    have hsnd : (get_backend lb).2 =
        { lb with current := (lb.current + 1) % 2 ^ 64 } := rfl
    by_cases hend : lb.current + 1 = 2 ^ 64
    · have hn : n = 0 := by omega
      subst hn
      simp only [selectSeq, hfst, hsnd]
      rw [List.range_succ_eq_map, List.range_zero, List.map_nil, List.map_cons,
        List.map_nil, Nat.add_zero]
    · have hcur : (lb.current + 1) % 2 ^ 64 = lb.current + 1 :=
        Nat.mod_eq_of_lt (by omega)
      have ih' := ih { lb with current := lb.current + 1 } hall hlen
        (by show lb.current + 1 + n ≤ 2 ^ 64; omega)
      simp only [selectSeq, hfst, hsnd, hcur]
      rw [List.range_succ_eq_map, List.map_cons, List.map_map]
      simp only at ih'
      rw [ih']
      simp only [List.cons.injEq]
      refine ⟨by rw [Nat.add_zero], ?_⟩
      apply List.map_congr_left
      intro x _
      simp only [Function.comp_apply]
      have harr : lb.current + 1 + x = lb.current + Nat.succ x := by omega
      rw [harr]

/-- C4: `get_backend` returns `none` exactly when no backend is healthy;
any selected backend is the first healthy one in a scan of at most one
full round starting at the cursor position (cursor modulo pool size); and
with all `N` backends healthy, `N` successive calls return the rotation
`cursor, cursor+1, ...` modulo `N` — all distinct, covering every
backend — before any repeat. -/
theorem get_backend_round_robin :
    (∀ lb : LoadBalancer,
       ((get_backend lb).1 = none ↔ ∀ b ∈ lb.backends, b.healthy = false)) ∧
    (∀ (lb : LoadBalancer) (j : Nat), (get_backend lb).1 = some j →
       ∃ d, d < lb.backends.length ∧
         j = (lb.current % lb.backends.length + d) % lb.backends.length ∧
         healthyAt lb.backends j = true ∧
         ∀ d', d' < d →
           healthyAt lb.backends
             ((lb.current % lb.backends.length + d') % lb.backends.length) = false) ∧
    (∀ (lb : LoadBalancer) (n : Nat),
       (∀ b ∈ lb.backends, b.healthy = true) → 0 < lb.backends.length →
       lb.current + n ≤ 2 ^ 64 →
       selectSeq lb n = (List.range n).map
         (fun i => some ((lb.current + i) % lb.backends.length))) ∧
    (∀ lb : LoadBalancer,
       (∀ b ∈ lb.backends, b.healthy = true) → 0 < lb.backends.length →
       lb.current + lb.backends.length ≤ 2 ^ 64 →
       (selectSeq lb lb.backends.length).Nodup ∧
       ∀ j, j < lb.backends.length →
         some j ∈ selectSeq lb lb.backends.length) := by
  refine ⟨get_backend_none_iff, get_backend_some_first, fun lb n => selectSeq_all_healthy n lb, ?_⟩
  intro lb hall hlen hwrap
  rw [selectSeq_all_healthy lb.backends.length lb hall hlen hwrap]
  constructor
  · apply List.Nodup.map_on
    · intro x hx y hy hxy
      have hx' : x < lb.backends.length := List.mem_range.mp hx
      have hy' : y < lb.backends.length := List.mem_range.mp hy
      exact mod_add_cancel_lt lb.current x y lb.backends.length hx' hy'
        (Option.some.inj hxy)
    · exact List.nodup_range _
  · intro j hj
    obtain ⟨d, hd, hmod⟩ := exists_mod_shift lb.current j lb.backends.length hj
    rw [List.mem_map]
    exact ⟨d, List.mem_range.mpr hd, by rw [hmod]⟩

/-! ### Worker lemmas -/

theorem workerMiss_sends_length (st : WorkerState) (key : String) (now : Nat)
    (net : DispatchOutcome) : ((workerMiss st key now net).2).length = 1 := by
  unfold workerMiss
  split
  · rfl
  · split
    · rfl
    · split <;> rfl

theorem workerStep_sends_length (ttl : Nat) (st : WorkerState)
    (req : GenerateRequest) (now : Nat) (net : DispatchOutcome) :
    ((workerStep ttl st req now net).2).length = 1 := by
  simp only [workerStep]
  split
  · split
    · split
      · rfl
      · exact workerMiss_sends_length ..
    · exact workerMiss_sends_length ..
  · exact workerMiss_sends_length ..

theorem runWorker_sends_length (ttl : Nat) (items : List WorkItem) :
    ∀ st : WorkerState, ((runWorker ttl st items).2).length = items.length := by
  induction items with
  | nil => intro st; rfl
  | cons it rest ih =>
    intro st
    simp only [runWorker, List.length_append, List.length_cons,
      workerStep_sends_length, ih]
    omega

theorem runWorker_ignores_dropped (ttl : Nat) (items : List WorkItem)
    (f : WorkItem → Bool) : ∀ st : WorkerState,
    runWorker ttl st (items.map fun it => { it with dropped := f it }) =
      runWorker ttl st items := by
  induction items with
  | nil => intro st; rfl
  | cons it rest ih =>
    intro st
    simp only [List.map_cons, runWorker]
    rw [ih ((workerStep ttl st it.req it.now it.net).1)]

/-! ### Claim C1: exactly one reply per dequeued item on every path, and
dropped reply handles do not disturb the loop -/

/-- C1: every worker iteration performs exactly one send on the item's
reply channel (fresh-hit, no-healthy-backend, transport-failure and
parse-failure paths alike); over a whole queue the worker sends exactly
one reply per item; and because send results are discarded, whether any
reply handle is dropped has no effect on the worker's behaviour — the
loop always continues to the next item (the step is a total function, so
no panic is possible). -/
theorem worker_exactly_one_reply :
    (∀ (ttl : Nat) (st : WorkerState) (req : GenerateRequest) (now : Nat)
       (net : DispatchOutcome),
       ((workerStep ttl st req now net).2).length = 1) ∧
    (∀ (ttl : Nat) (st : WorkerState) (items : List WorkItem),
       ((runWorker ttl st items).2).length = items.length) ∧
    (∀ (ttl : Nat) (st : WorkerState) (items : List WorkItem)
       (f : WorkItem → Bool),
       runWorker ttl st (items.map fun it => { it with dropped := f it }) =
         runWorker ttl st items) :=
  ⟨workerStep_sends_length,
   fun ttl st items => runWorker_sends_length ttl items st,
   fun ttl st items f => runWorker_ignores_dropped ttl items f st⟩

/-! ### Claim C2: transport failures demote the backend, parse failures
do not -/

theorem healthFlags_setHealthyAt (bs : List Backend) :
    ∀ (idx : Nat) (h : Bool),
    (setHealthyAt bs idx h).map Backend.healthy =
      (bs.map Backend.healthy).set idx h := by
  induction bs with
  | nil => intro idx h; rfl
  | cons b rest ih =>
    intro idx h
    rcases idx with _ | idx
    · rfl
    · simp only [setHealthyAt, List.map_cons, List.set_cons_succ, ih]

theorem get_backend_backends (lb : LoadBalancer) (r : Option Nat)
    (lb' : LoadBalancer) (h : get_backend lb = (r, lb')) :
    lb'.backends = lb.backends := by
  unfold get_backend at h
  have := (Prod.mk.injEq _ _ _ _).mp h
  rw [← this.2]

/-- C2: if the dispatch for a cache-missing request fails at the transport
level, the worker sets the selected backend's health flag to false and
replies with a failure carrying the transport error; if the dispatch
succeeds but the body fails to parse, the worker replies with a failure
and every backend's health flag is left exactly as it was. -/
theorem worker_transport_vs_parse_failure :
    ∀ (ttl : Nat) (st : WorkerState) (req : GenerateRequest) (now : Nat)
      (idx : Nat) (lb' : LoadBalancer),
    mapGet st.cache (make_cache_key req) = none →
    get_backend st.lb = (some idx, lb') →
    (∀ e, workerStep ttl st req now (.transportError e) =
        ({ st with lb := { lb' with backends := setHealthyAt lb'.backends idx false } },
         [.err ("Request failed: " ++ e)]) ∧
      healthFlags
          { lb' with backends := setHealthyAt lb'.backends idx false } =
        (healthFlags st.lb).set idx false) ∧
    (∀ body, parseResponse body = none →
      workerStep ttl st req now (.response body) =
        ({ st with lb := lb' }, [.err ("Parse Error: " ++ body)]) ∧
      healthFlags lb' = healthFlags st.lb) := by
  intro ttl st req now idx lb' hm hg
  have hbs : lb'.backends = st.lb.backends := get_backend_backends st.lb _ _ hg
  constructor
  · intro e
    constructor
    · simp only [workerStep, hm, workerMiss, hg]
    · show (setHealthyAt lb'.backends idx false).map Backend.healthy =
        (st.lb.backends.map Backend.healthy).set idx false
      rw [healthFlags_setHealthyAt, hbs]
  · intro body hp
    constructor
    · simp only [workerStep, hm, workerMiss, hg, hp]
    · show lb'.backends.map Backend.healthy = st.lb.backends.map Backend.healthy
      rw [hbs]

/-! ### Claim C6: freshness boundary and the fresh-hit fast path -/

theorem workerStep_fresh_parse_ok (ttl : Nat) (st : WorkerState)
    (req : GenerateRequest) (now : Nat) (net : DispatchOutcome)
    (entry : CacheEntry) (r : GenerateResponse)
    (hm : mapGet st.cache (make_cache_key req) = some entry)
    (hwf : entry.response = serializeResponse r)
    (hfresh : now - entry.created_at < ttl) :
    workerStep ttl st req now net = (st, [.ok r]) := by
  simp only [workerStep, hm]
  rw [if_pos hfresh, hwf, parseResponse_serializeResponse]

/-- C6: an entry is fresh exactly when strictly less than `ttl` has
elapsed.  A fresh, well-formed entry is answered straight from the cache
— state untouched, reply is the cached payload, and the network oracle is
irrelevant (no backend contact).  At exactly `ttl` elapsed (or more), and
on an absent entry, the worker proceeds to backend selection (the miss
path). -/
theorem worker_fresh_hit_vs_expiry :
    ∀ (ttl : Nat) (st : WorkerState) (req : GenerateRequest) (now : Nat)
      (net : DispatchOutcome),
    (∀ entry, mapGet st.cache (make_cache_key req) = some entry →
      (∀ r, entry.response = serializeResponse r →
        now - entry.created_at < ttl →
        workerStep ttl st req now net = (st, [.ok r])) ∧
      (ttl ≤ now - entry.created_at →
        workerStep ttl st req now net =
          workerMiss st (make_cache_key req) now net)) ∧
    (mapGet st.cache (make_cache_key req) = none →
      workerStep ttl st req now net =
        workerMiss st (make_cache_key req) now net) := by
  intro ttl st req now net
  constructor
  · intro entry hm
    constructor
    · intro r hwf hfresh
      exact workerStep_fresh_parse_ok ttl st req now net entry r hm hwf hfresh
    · intro hexp
      simp only [workerStep, hm]
      rw [if_neg (by omega)]
  · intro hm
    simp only [workerStep, hm]

/-! ### Claim C8: the cache is written only by a successful, parseable
backend response -/

theorem workerMiss_cache_cases (st : WorkerState) (key : String) (now : Nat)
    (net : DispatchOutcome) :
    (workerMiss st key now net).1.cache = st.cache ∨
    (∃ body b, net = .response body ∧ parseResponse body = some b ∧
      (workerMiss st key now net).2 = [.ok b] ∧
      (workerMiss st key now net).1.cache =
        mapInsert st.cache key
          { response := serializeResponse b, created_at := now }) := by
  unfold workerMiss
  split
  · left; rfl
  · split
    · left; rfl
    · split
      · rename_i b hp
        right
        exact ⟨_, b, rfl, hp, rfl, rfl⟩
      · left; rfl

theorem workerStep_cache_cases (ttl : Nat) (st : WorkerState)
    (req : GenerateRequest) (now : Nat) (net : DispatchOutcome) :
    (workerStep ttl st req now net).1.cache = st.cache ∨
    (∃ body b, net = .response body ∧ parseResponse body = some b ∧
      (workerStep ttl st req now net).2 = [.ok b] ∧
      (workerStep ttl st req now net).1.cache =
        mapInsert st.cache (make_cache_key req)
          { response := serializeResponse b, created_at := now }) := by
  simp only [workerStep]
  split
  · split
    · split
      · left; rfl
      · exact workerMiss_cache_cases ..
    · exact workerMiss_cache_cases ..
  · exact workerMiss_cache_cases ..

/-- C8: whenever a dequeued item ends in a failure reply — no healthy
backend, transport failure, or parse failure — the cache map is exactly
what it was before the item, so in particular any expired entry for the
item's fingerprint is still present; the cache changes only when a
successful dispatch yields a parseable body, which is also replied as
success. -/
theorem worker_failure_leaves_cache :
    ∀ (ttl : Nat) (st : WorkerState) (req : GenerateRequest) (now : Nat)
      (net : DispatchOutcome),
    (∀ e, (workerStep ttl st req now net).2 = [.err e] →
      (workerStep ttl st req now net).1.cache = st.cache) ∧
    (∀ e k v, (workerStep ttl st req now net).2 = [.err e] →
      mapGet st.cache k = some v →
      mapGet (workerStep ttl st req now net).1.cache k = some v) ∧
    ((workerStep ttl st req now net).1.cache ≠ st.cache →
      ∃ body b, net = .response body ∧ parseResponse body = some b ∧
        (workerStep ttl st req now net).2 = [.ok b]) := by
  intro ttl st req now net
  have hcases := workerStep_cache_cases ttl st req now net
  have herr : ∀ e, (workerStep ttl st req now net).2 = [.err e] →
      (workerStep ttl st req now net).1.cache = st.cache := by
    intro e he
    rcases hcases with h | ⟨body, b, _, _, hok, _⟩
    · exact h
    · rw [hok] at he
      exact absurd (List.cons.inj he).1 (by intro hx; cases hx)
  refine ⟨herr, ?_, ?_⟩
  · intro e k v he hv
    rw [herr e he]
    exact hv
  · intro hne
    rcases hcases with h | ⟨body, b, hnet, hp, hok, _⟩
    · exact absurd h hne
    · exact ⟨body, b, hnet, hp, hok⟩

/-! ### Claim C10: cache well-formedness is invariant, so a fresh hit
never fails to parse and the fall-through is unreachable -/

theorem cacheWF_workerStep (ttl : Nat) (st : WorkerState)
    (req : GenerateRequest) (now : Nat) (net : DispatchOutcome)
    (hwf : cacheWF st.cache) : cacheWF (workerStep ttl st req now net).1.cache := by
  rcases workerStep_cache_cases ttl st req now net with h | ⟨body, b, _, _, _, h⟩
  · rw [h]; exact hwf
  · rw [h]
    intro k e hk
    rw [mapGet_mapInsert] at hk
    by_cases hkk : k = make_cache_key req
    · rw [if_pos hkk] at hk
      exact ⟨b, (Option.some.inj hk).symm ▸ rfl⟩
    · rw [if_neg hkk] at hk
      exact hwf k e hk

theorem cacheWF_runWorker (ttl : Nat) (items : List WorkItem) :
    ∀ st : WorkerState, cacheWF st.cache →
      cacheWF (runWorker ttl st items).1.cache := by
  induction items with
  | nil => intro st h; exact h
  | cons it rest ih =>
    intro st h
    simp only [runWorker]
    exact ih _ (cacheWF_workerStep ttl st it.req it.now it.net h)

/-- C10: every entry of a worker-maintained cache is the serialization of
some `GenerateResponse`, and both a single worker step and any run of the
worker loop preserve this; consequently the JSON parse on a cache hit
cannot fail, and a fresh hit always replies the cached payload — the
fall-through from a fresh-but-unparseable entry to a backend dispatch is
unreachable. -/
theorem worker_cache_entries_parseable :
    (∀ (ttl : Nat) (st : WorkerState) (req : GenerateRequest) (now : Nat)
       (net : DispatchOutcome), cacheWF st.cache →
       cacheWF (workerStep ttl st req now net).1.cache) ∧
    (∀ (ttl : Nat) (st : WorkerState) (items : List WorkItem),
       cacheWF st.cache → cacheWF (runWorker ttl st items).1.cache) ∧
    (∀ (m : List (String × CacheEntry)) (k : String) (entry : CacheEntry),
       cacheWF m → mapGet m k = some entry →
       parseResponse entry.response ≠ none) ∧
    (∀ (ttl : Nat) (st : WorkerState) (req : GenerateRequest) (now : Nat)
       (net : DispatchOutcome) (entry : CacheEntry), cacheWF st.cache →
       mapGet st.cache (make_cache_key req) = some entry →
       now - entry.created_at < ttl →
       ∃ r, parseResponse entry.response = some r ∧
         workerStep ttl st req now net = (st, [.ok r])) := by
  refine ⟨cacheWF_workerStep, fun ttl st items => cacheWF_runWorker ttl items st,
    ?_, ?_⟩
  · intro m k entry hwf hk
    obtain ⟨r, hr⟩ := hwf k entry hk
    rw [hr, parseResponse_serializeResponse]
    exact Option.noConfusion
  · intro ttl st req now net entry hwf hk hfresh
    obtain ⟨r, hr⟩ := hwf _ entry hk
    refine ⟨r, by rw [hr, parseResponse_serializeResponse], ?_⟩
    exact workerStep_fresh_parse_ok ttl st req now net entry r hk hr hfresh

/-! ### Claim C7: three distinguishable failure results at the facade -/

/-- C7: when admission is rejected the handler returns the rate-limit
error and nothing is enqueued; with admission granted but the queue
closed it returns a distinct queue error (still nothing enqueued); with
the request enqueued but the reply handle dropped it returns (it does not
hang — the model is a total function) a distinct worker-unresponsive
error; and the three failure messages are pairwise distinct. -/
theorem gateway_error_paths :
    (∀ (st : HandlerState) (now : Nat) (oracle : HandlerOracle),
       (check_rate_limit st.rate_limit st.rate_window st.rlEntry now).2 = false →
       generate_handler st now oracle =
         ({ st with rlEntry :=
             (some (check_rate_limit st.rate_limit st.rate_window st.rlEntry now).1) },
          false, .failure "Rate limit exceeded. Try again later.")) ∧
    (∀ (st : HandlerState) (now : Nat) (oracle : HandlerOracle),
       (check_rate_limit st.rate_limit st.rate_window st.rlEntry now).2 = true →
       oracle.queueOpen = false →
       generate_handler st now oracle =
         ({ st with rlEntry :=
             (some (check_rate_limit st.rate_limit st.rate_window st.rlEntry now).1) },
          false, .failure "Failed to queue request")) ∧
    (∀ (st : HandlerState) (now : Nat) (oracle : HandlerOracle),
       (check_rate_limit st.rate_limit st.rate_window st.rlEntry now).2 = true →
       oracle.queueOpen = true →
       oracle.workerReply = none →
       generate_handler st now oracle =
         ({ st with rlEntry :=
             (some (check_rate_limit st.rate_limit st.rate_window st.rlEntry now).1) },
          true, .failure "Worker failed to respond")) ∧
    (HandlerResult.failure "Rate limit exceeded. Try again later." ≠
       HandlerResult.failure "Failed to queue request" ∧
     HandlerResult.failure "Rate limit exceeded. Try again later." ≠
       HandlerResult.failure "Worker failed to respond" ∧
     HandlerResult.failure "Failed to queue request" ≠
       HandlerResult.failure "Worker failed to respond") := by
  refine ⟨?_, ?_, ?_, by decide, by decide, by decide⟩
  · intro st now oracle h
    simp [generate_handler, h]
  · intro st now oracle h hq
    simp [generate_handler, h, hq]
  · intro st now oracle h hq hw
    simp [generate_handler, h, hq, hw]

/-! ### Witnesses -/

/-- Witness for C2 at a one-backend pool: a transport error demotes the
backend and yields the transport failure reply; an unparseable body
leaves health untouched and yields the parse failure reply. -/
theorem worker_transport_vs_parse_failure_witness :
    workerStep 5 ⟨[], ⟨[⟨"b0", true⟩], 0⟩⟩ ⟨"m", "p", false⟩ 3
        (.transportError "boom") =
      (⟨[], ⟨[⟨"b0", false⟩], 1⟩⟩, [.err "Request failed: boom"]) ∧
    workerStep 5 ⟨[], ⟨[⟨"b0", true⟩], 0⟩⟩ ⟨"m", "p", false⟩ 3
        (.response "junk") =
      (⟨[], ⟨[⟨"b0", true⟩], 1⟩⟩, [.err "Parse Error: junk"]) := by
  have h := worker_transport_vs_parse_failure 5 ⟨[], ⟨[⟨"b0", true⟩], 0⟩⟩
    ⟨"m", "p", false⟩ 3 0 ⟨[⟨"b0", true⟩], 1⟩ rfl (by decide)
  exact ⟨(h.1 "boom").1, (h.2 "junk" (by decide)).1⟩

/-- Witness for C3 at limit 2, window 10: an expired window resets and
admits; an in-window call below the limit increments and admits; and on a
fresh key the calls at times 0, 1, 2 admit, admit, reject. -/
theorem rate_limit_window_behavior_witness :
    check_rate_limit 2 10 (some ⟨5, 0⟩) 20 = (⟨1, 20⟩, true) ∧
    check_rate_limit 2 10 (some ⟨1, 0⟩) 5 = (⟨2, 0⟩, true) ∧
    (admitSeq 2 10 none [0, 1, 2]).2 =
      (List.range (2 + 1)).map (fun i => decide (i < 2)) := by
  obtain ⟨h1, h2, h3⟩ := rate_limit_window_behavior
  refine ⟨h1 2 10 20 ⟨5, 0⟩ (by decide), ?_,
    h3 2 10 0 [1, 2] (by decide)⟩
  rw [h2 2 10 5 ⟨1, 0⟩ (by decide)]
  decide

/-- Witness for C4 on a two-backend pool: all-unhealthy yields `none`;
with only the second backend healthy selection skips to it; and with both
healthy two successive selections are the full rotation 0, 1 with no
repeat. -/
theorem get_backend_round_robin_witness :
    (get_backend ⟨[⟨"a", false⟩], 0⟩).1 = none ∧
    (∃ d, d < 2 ∧ 1 = (0 % 2 + d) % 2 ∧
       healthyAt [⟨"a", false⟩, ⟨"b", true⟩] 1 = true ∧
       ∀ d', d' < d →
         healthyAt [⟨"a", false⟩, ⟨"b", true⟩] ((0 % 2 + d') % 2) = false) ∧
    selectSeq ⟨[⟨"a", true⟩, ⟨"b", true⟩], 0⟩ 2 = [some 0, some 1] ∧
    (selectSeq ⟨[⟨"a", true⟩, ⟨"b", true⟩], 0⟩ 2).Nodup := by
  obtain ⟨h1, h2, h3, h4⟩ := get_backend_round_robin
  refine ⟨(h1 ⟨[⟨"a", false⟩], 0⟩).mpr (by decide),
    h2 ⟨[⟨"a", false⟩, ⟨"b", true⟩], 0⟩ 1 (by decide), ?_, ?_⟩
  · exact h3 ⟨[⟨"a", true⟩, ⟨"b", true⟩], 0⟩ 2 (by decide) (by decide) (by decide)
  · exact (h4 ⟨[⟨"a", true⟩, ⟨"b", true⟩], 0⟩ (by decide) (by decide) (by decide)).1

/-- Witness for C6: a fresh well-formed entry (age 3 of ttl 5) is replied
from the cache with no state change; the same entry at age exactly 5 is
non-fresh and the step proceeds to the miss path. -/
theorem worker_fresh_hit_vs_expiry_witness :
    workerStep 5
        ⟨[(make_cache_key ⟨"m", "p", false⟩,
           ⟨serializeResponse ⟨"m", "hi"⟩, 0⟩)], ⟨[⟨"b0", true⟩], 0⟩⟩
        ⟨"m", "p", false⟩ 3 (.transportError "boom") =
      (⟨[(make_cache_key ⟨"m", "p", false⟩,
          ⟨serializeResponse ⟨"m", "hi"⟩, 0⟩)], ⟨[⟨"b0", true⟩], 0⟩⟩,
       [.ok ⟨"m", "hi"⟩]) ∧
    workerStep 5
        ⟨[(make_cache_key ⟨"m", "p", false⟩,
           ⟨serializeResponse ⟨"m", "hi"⟩, 0⟩)], ⟨[⟨"b0", true⟩], 0⟩⟩
        ⟨"m", "p", false⟩ 5 (.transportError "boom") =
      workerMiss
        ⟨[(make_cache_key ⟨"m", "p", false⟩,
           ⟨serializeResponse ⟨"m", "hi"⟩, 0⟩)], ⟨[⟨"b0", true⟩], 0⟩⟩
        (make_cache_key ⟨"m", "p", false⟩) 5 (.transportError "boom") := by
  have hget : mapGet
      [(make_cache_key ⟨"m", "p", false⟩,
        (⟨serializeResponse ⟨"m", "hi"⟩, 0⟩ : CacheEntry))]
      (make_cache_key ⟨"m", "p", false⟩) =
      some ⟨serializeResponse ⟨"m", "hi"⟩, 0⟩ := by
    simp [mapGet, List.find?]
  constructor
  · exact (((worker_fresh_hit_vs_expiry 5 _ ⟨"m", "p", false⟩ 3
      (.transportError "boom")).1 _ hget).1 ⟨"m", "hi"⟩ rfl (by decide))
  · exact (((worker_fresh_hit_vs_expiry 5 _ ⟨"m", "p", false⟩ 5
      (.transportError "boom")).1 _ hget).2 (by decide))

/-- Witness for C7: rejection, closed-queue, and dropped-handle calls at
concrete states return the three distinct failures, with enqueueing
happening only in the third. -/
theorem gateway_error_paths_witness :
    generate_handler ⟨some ⟨2, 0⟩, 2, 10⟩ 5 ⟨true, none⟩ =
      (⟨some ⟨2, 0⟩, 2, 10⟩, false,
       .failure "Rate limit exceeded. Try again later.") ∧
    generate_handler ⟨none, 2, 10⟩ 0 ⟨false, none⟩ =
      (⟨some ⟨1, 0⟩, 2, 10⟩, false, .failure "Failed to queue request") ∧
    generate_handler ⟨none, 2, 10⟩ 0 ⟨true, none⟩ =
      (⟨some ⟨1, 0⟩, 2, 10⟩, true, .failure "Worker failed to respond") := by
  obtain ⟨h1, h2, h3, _⟩ := gateway_error_paths
  exact ⟨h1 ⟨some ⟨2, 0⟩, 2, 10⟩ 5 ⟨true, none⟩ (by decide),
    h2 ⟨none, 2, 10⟩ 0 ⟨false, none⟩ (by decide) rfl,
    h3 ⟨none, 2, 10⟩ 0 ⟨true, none⟩ (by decide) rfl rfl⟩

/-- Witness for C8: with an (expired) entry present and no healthy
backend, the item fails and the entry is still there afterwards. -/
theorem worker_failure_leaves_cache_witness :
    (workerStep 5 ⟨[("k", ⟨"boo", 0⟩)], ⟨[], 0⟩⟩ ⟨"m", "p", false⟩ 10
        (.response "x")).1.cache = [("k", ⟨"boo", 0⟩)] ∧
    mapGet (workerStep 5 ⟨[("k", ⟨"boo", 0⟩)], ⟨[], 0⟩⟩ ⟨"m", "p", false⟩ 10
        (.response "x")).1.cache "k" = some ⟨"boo", 0⟩ := by
  have h := worker_failure_leaves_cache 5 ⟨[("k", ⟨"boo", 0⟩)], ⟨[], 0⟩⟩
    ⟨"m", "p", false⟩ 10 (.response "x")
  exact ⟨h.1 "No Healthy backends available" (by decide),
    h.2.1 "No Healthy backends available" "k" ⟨"boo", 0⟩ (by decide) (by decide)⟩

/-- Witness for C9: the concrete colliding pair, via the general
concatenation lemma. -/
theorem cache_key_collision_concat_witness :
    make_cache_key { model := "ab", prompt := "c", stream := false } =
      make_cache_key { model := "a", prompt := "bc", stream := false } :=
  cache_key_collision_concat.1 ⟨"ab", "c", false⟩ ⟨"a", "bc", false⟩ (by decide)

/-- Witness for C10: a concrete well-formed one-entry cache stays
well-formed across a step, its entry parses, and a fresh hit on it
replies the cached payload. -/
theorem worker_cache_entries_parseable_witness :
    cacheWF (workerStep 5 ⟨[], ⟨[⟨"b0", true⟩], 0⟩⟩ ⟨"m", "p", false⟩ 3
        (.response "x")).1.cache ∧
    parseResponse (serializeResponse ⟨"m", "hi"⟩) ≠ none ∧
    (∃ r, parseResponse (serializeResponse ⟨"m", "hi"⟩) = some r ∧
       workerStep 5
           ⟨[(make_cache_key ⟨"m", "p", false⟩,
              ⟨serializeResponse ⟨"m", "hi"⟩, 0⟩)], ⟨[⟨"b0", true⟩], 0⟩⟩
           ⟨"m", "p", false⟩ 3 (.transportError "boom") =
         (⟨[(make_cache_key ⟨"m", "p", false⟩,
             ⟨serializeResponse ⟨"m", "hi"⟩, 0⟩)], ⟨[⟨"b0", true⟩], 0⟩⟩,
          [.ok r])) := by
  obtain ⟨h1, _, h3, h4⟩ := worker_cache_entries_parseable
  have hempty : cacheWF ([] : List (String × CacheEntry)) := by
    intro k e h
    exact Option.noConfusion h
  have hone : cacheWF
      [(make_cache_key ⟨"m", "p", false⟩,
        (⟨serializeResponse ⟨"m", "hi"⟩, 0⟩ : CacheEntry))] := by
    intro k e h
    simp only [mapGet, List.find?] at h
    split at h
    · refine ⟨⟨"m", "hi"⟩, ?_⟩
      rw [← (Option.some.inj h)]
    · exact Option.noConfusion h
  have hget : mapGet
      [(make_cache_key ⟨"m", "p", false⟩,
        (⟨serializeResponse ⟨"m", "hi"⟩, 0⟩ : CacheEntry))]
      (make_cache_key ⟨"m", "p", false⟩) =
      some ⟨serializeResponse ⟨"m", "hi"⟩, 0⟩ := by
    simp [mapGet, List.find?]
  refine ⟨h1 5 ⟨[], ⟨[⟨"b0", true⟩], 0⟩⟩ ⟨"m", "p", false⟩ 3 (.response "x") hempty,
    h3 [(make_cache_key ⟨"m", "p", false⟩, ⟨serializeResponse ⟨"m", "hi"⟩, 0⟩)]
      (make_cache_key ⟨"m", "p", false⟩) ⟨serializeResponse ⟨"m", "hi"⟩, 0⟩
      hone hget, ?_⟩
  exact h4 5 _ ⟨"m", "p", false⟩ 3 (.transportError "boom")
    ⟨serializeResponse ⟨"m", "hi"⟩, 0⟩ hone hget (by decide)

end Gateway
